import Mathlib

/-!
Verification of the OpenMalaria case-management / scheduling core.

Shallow embedding of:
* `src/model/sim.h` (SimTime conversions and the two-phase simulation clock),
* `src/unnamed/part_003` (intervention deployment: continuous, timed, and
  cumulative-coverage mass deployment; checkpoint replay),
* `src/unnamed/part_000` (CaseTreatment medication-queue builder),
* `src/unnamed/part_002` (DrugType registry).

Machine doubles are embedded as rationals, C++ exceptions as `Except`,
the shared uniform random stream as an explicit `Nat → ℚ` stream whose
consumed-draw count is part of each function's result.
-/

set_option linter.unreachableTactic false
set_option linter.unusedVariables false
set_option linter.unusedTactic false
set_option linter.unnecessarySeqFocus false

namespace OMSpec

/-- Scenario-wide time constants (src/model/sim.h, class SimData):
days per time step and the cached number of steps per year. -/
structure SimData where
  interval : Int
  steps_per_year : Int

/-- floorToInt from sim.h: floor of a real, as an integer. -/
def floorToInt (x : ℚ) : Int := x.floor

/-- SimTime (src/model/sim.h): an integer count of days. -/
structure SimTime where
  d : Int
deriving DecidableEq, Repr

/-- SimTime::fromDays. -/
def SimTime.fromDays (days : Int) : SimTime := ⟨days⟩

/-- SimTime::oneTS — one time step. -/
def SimTime.oneTS (sd : SimData) : SimTime := ⟨sd.interval⟩

/-- SimTime addition (operator+ in sim.h). -/
def SimTime.add (a b : SimTime) : SimTime := ⟨a.d + b.d⟩

instance : Add SimTime := ⟨SimTime.add⟩

/-- SimTime::fromTS — oneTS() scaled by an integer number of steps. -/
def SimTime.fromTS (sd : SimData) (ts : Int) : SimTime := ⟨sd.interval * ts⟩

/-- SimTime::roundToTSFromDays — round a day count to the nearest time step. -/
def SimTime.roundToTSFromDays (sd : SimData) (days : ℚ) : SimTime :=
  SimTime.fromTS sd (floorToInt (days / (sd.interval : ℚ) + 1/2))

/-- SimTime::fromYearsN — years to the nearest time step. -/
def SimTime.fromYearsN (sd : SimData) (years : ℚ) : SimTime :=
  SimTime.roundToTSFromDays sd ((365 : ℚ) * years)

/-- SimTime::fromYearsD — years rounded down to a whole time step. -/
def SimTime.fromYearsD (sd : SimData) (years : ℚ) : SimTime :=
  SimTime.fromTS sd (floorToInt ((sd.steps_per_year : ℚ) * years))

/-- SimTime::inSteps — length in whole time steps (rounding down). -/
def SimTime.inSteps (sd : SimData) (t : SimTime) : Int := t.d / sd.interval

/-- SimTime::inDays. -/
def SimTime.inDays (t : SimTime) : Int := t.d

/-- The concrete SimData of the 5-day-time-step example scenario:
interval 5 days, 365 / 5 = 73 steps per year. -/
def sd5 : SimData := ⟨5, 73⟩

/-- The static state of class sim (src/model/sim.h): start-of-step time,
end-of-step time, intervention-relative time, and the in-update flag. -/
structure SimClock where
  s_t0 : SimTime
  s_t1 : SimTime
  s_interv : SimTime
  in_update : Bool
deriving DecidableEq, Repr

/-- sim::start_update — advance the end-of-step time by one step and set
the in-update flag. -/
def sim.start_update (sd : SimData) (s : SimClock) : SimClock :=
  { s with s_t1 := s.s_t1 + SimTime.oneTS sd, in_update := true }

/-- sim::end_update — clear the in-update flag, set the start-of-step time to
the end-of-step time, and advance the intervention-relative clock one step. -/
def sim.end_update (sd : SimData) (s : SimClock) : SimClock :=
  { s with in_update := false, s_t0 := s.s_t1, s_interv := s.s_interv + SimTime.oneTS sd }

/-- sim::ts0 — start-of-step time; the assert on the in-update flag is
embedded as `none` when the flag is clear. -/
def sim.ts0 (s : SimClock) : Option SimTime :=
  if s.in_update then some s.s_t0 else none

/-- sim::ts1 — end-of-step time; asserts the in-update flag is set. -/
def sim.ts1 (s : SimClock) : Option SimTime :=
  if s.in_update then some s.s_t1 else none

/-- sim::now — instant time; asserts the in-update flag is clear. -/
def sim.now (s : SimClock) : Option SimTime :=
  if s.in_update then none else some s.s_t0

/-- Clock states reachable from an initial between-updates state (with
start-of-step = end-of-step) by the Simulator's alternating calls to
start_update and end_update. -/
inductive sim.Reachable (sd : SimData) : SimClock → Prop
  | init (t0 iv : SimTime) : sim.Reachable sd ⟨t0, t0, iv, false⟩
  | step_start (s : SimClock) (h : sim.Reachable sd s) (hu : s.in_update = false) :
      sim.Reachable sd (sim.start_update sd s)
  | step_end (s : SimClock) (h : sim.Reachable sd s) (hu : s.in_update = true) :
      sim.Reachable sd (sim.end_update sd s)

/-- A sample between-updates clock state, used to witness the clock claims. -/
def clk0 : SimClock := ⟨⟨0⟩, ⟨0⟩, ⟨0⟩, false⟩

/-- The per-human attributes read by the deployments modelled here: current
age in time steps (TimeStep::simulation - getDateOfBirth()), cohort
membership, and whether an intervention of the relevant type still protects
the human (the isProtected callback at the configured maximum age). -/
structure Human where
  age : Int
  inCohort : Bool
  protected_ : Bool
deriving DecidableEq, Repr

/-- ContinuousDeployment (src/unnamed/part_003): active window [begin, end)
in intervention time, target deployment age in time steps, cohort
restriction and coverage. -/
structure ContinuousDeployment where
  begin_ : Int
  end_ : Int
  deployAge : Int
  cohortOnly : Bool
  coverage : ℚ
deriving DecidableEq, Repr

/-- Outcome of one ContinuousDeployment::filterAndDeploy call: the boolean
return value, whether deploy() was invoked, and how many uniform_01 draws
were consumed. -/
structure FilterResult where
  retVal : Bool
  deployed : Bool
  draws : Nat
deriving DecidableEq, Repr

/-- ContinuousDeployment::filterAndDeploy. The && chain of the source is
kept as nested tests so that the draw is consumed only when every earlier
test passed; draw is the value uniform_01() would return. -/
def ContinuousDeployment.filterAndDeploy (cd : ContinuousDeployment)
    (h : Human) (interventionPeriod : Int) (draw : ℚ) : FilterResult :=
  if cd.deployAge > h.age then
    ⟨false, false, 0⟩
  else if cd.deployAge = h.age then
    if cd.begin_ ≤ interventionPeriod then
      if interventionPeriod < cd.end_ then
        if !cd.cohortOnly || h.inCohort then
          if draw < cd.coverage then ⟨true, true, 1⟩
          else ⟨true, false, 1⟩
        else ⟨true, false, 0⟩
      else ⟨true, false, 0⟩
    else ⟨true, false, 0⟩
  else ⟨true, false, 0⟩

/-- The timed-deployment state of the InterventionManager
(src/unnamed/part_003): the trigger times of the timed list (terminated by
the DummyTimedDeployment sentinel) and the single global cursor nextTimed. -/
structure InterventionManager where
  timed : List Int
  nextTimed : Nat
deriving DecidableEq, Repr

/-- The while-loop inside InterventionManager::deploy, applied to the list
suffix at the cursor: deploy (record the index of) each leading descriptor
whose time is at or before the intervention period, advancing past it. -/
def deployTimedLoop (interventionPeriod : Int) : List Int → Nat → List Nat × Nat
  | [], idx => ([], idx)
  | t :: rest, idx =>
    if t ≤ interventionPeriod then
      let r := deployTimedLoop interventionPeriod rest (idx + 1)
      (idx :: r.1, r.2)
    else ([], idx)

/-- InterventionManager::deploy, timed part: during warm-up
(interventionPeriod < 0) do nothing; otherwise run the timed while-loop
from the current cursor. Returns the updated manager and the indices of
the descriptors deployed, in order. -/
def InterventionManager.deploy (im : InterventionManager)
    (interventionPeriod : Int) : InterventionManager × List Nat :=
  if interventionPeriod < 0 then (im, [])
  else
    let r := deployTimedLoop interventionPeriod
        (im.timed.drop im.nextTimed) im.nextTimed
    ({ im with nextTimed := r.2 }, r.1)

/-- Repeated calls of InterventionManager::deploy, one per simulation step,
collecting all deployed indices in order. -/
def runDeploy : InterventionManager → List Int → InterventionManager × List Nat
  | im, [] => (im, [])
  | im, p :: ps =>
    let r := im.deploy p
    let r2 := runDeploy r.1 ps
    (r2.1, r.2 ++ r2.2)

/-- TimedMassDeployment (src/unnamed/part_003): deployment time, age window
[minAge, maxAge), cohort restriction and coverage. -/
structure TimedMassDeployment where
  time : Int
  minAge : Int
  maxAge : Int
  cohortOnly : Bool
  coverage : ℚ
deriving DecidableEq, Repr

/-- Eligibility test of the mass-deployment loops: in the age window and,
when cohortOnly is set, in the cohort. -/
def TimedMassDeployment.eligible (d : TimedMassDeployment) (h : Human) : Bool :=
  decide (d.minAge ≤ h.age) && decide (h.age < d.maxAge) &&
    (!d.cohortOnly || h.inCohort)

/-- First pass of TimedMassCumDeployment::deploy starting at population
index i: count the eligible humans and collect, in population order, the
indices of the unprotected eligible ones. No RNG draw is made. -/
def cumFirstPass (d : TimedMassDeployment) : List Human → Nat → Nat × List Nat
  | [], _ => (0, [])
  | h :: rest, i =>
    let r := cumFirstPass d rest (i + 1)
    if d.eligible h then
      if !h.protected_ then (r.1 + 1, i :: r.2) else (r.1 + 1, r.2)
    else r

/-- Second pass of TimedMassCumDeployment::deploy: one uniform_01 draw per
unprotected human, deploying exactly when the draw is below
additionalCoverage. rng k is the value of the k-th uniform draw of this
deployment; the pass returns the deployed indices and the final draw
counter. -/
def cumSecondPass (additionalCoverage : ℚ) (rng : Nat → ℚ) :
    List Nat → Nat → List Nat × Nat
  | [], k => ([], k)
  | i :: rest, k =>
    let r := cumSecondPass additionalCoverage rng rest (k + 1)
    if rng k < additionalCoverage then (i :: r.1, r.2) else r

/-- total of the first pass: the number of eligible humans. -/
def cumTotal (d : TimedMassDeployment) (pop : List Human) : Nat :=
  (cumFirstPass d pop 0).1

/-- unprotected of the first pass: indices of unprotected eligible humans,
in population order. -/
def cumUnprotected (d : TimedMassDeployment) (pop : List Human) : List Nat :=
  (cumFirstPass d pop 0).2

/-- propProtected of TimedMassCumDeployment::deploy:
(total - unprotected.size()) / total. -/
def cumPropProtected (d : TimedMassDeployment) (pop : List Human) : ℚ :=
  ((cumTotal d pop : ℚ) - ((cumUnprotected d pop).length : ℚ)) /
    (cumTotal d pop : ℚ)

/-- additionalCoverage of TimedMassCumDeployment::deploy:
(coverage - propProtected) / (1 - propProtected). -/
def cumAdditionalCoverage (d : TimedMassDeployment) (pop : List Human) : ℚ :=
  (d.coverage - cumPropProtected d pop) / (1 - cumPropProtected d pop)

/-- TimedMassCumDeployment::deploy: compute the protected fraction among
eligible humans and, when it is below the requested coverage, top up with
the second pass over the unprotected. Returns (deployed indices, number of
uniform_01 draws made). -/
def TimedMassDeployment.cumDeploy (d : TimedMassDeployment) (pop : List Human)
    (rng : Nat → ℚ) : List Nat × Nat :=
  if cumPropProtected d pop < d.coverage then
    cumSecondPass (cumAdditionalCoverage d pop) rng (cumUnprotected d pop) 0
  else ([], 0)

/-- MedicateData (src/unnamed/part_000): one drug-prescription record. -/
structure MedicateData where
  abbrev_ : String
  qty : ℚ
  time : Int
  seekingDelay : Int
deriving DecidableEq, Repr

/-- CaseTreatment (src/unnamed/part_000): the ordered medication sequence of
a decision-tree leaf. -/
structure CaseTreatment where
  medications : List MedicateData
deriving DecidableEq, Repr

/-- The treatment-seeking-delay decode in CaseTreatment::apply:
(id & Decision::TSDELAY_MASK) >> Decision::TSDELAY_SHIFT. The numeric
values of the two constants live in Clinical/ESDecision.h, which is not
among these sources, so mask and shift are parameters here. -/
def decodeDelay (tsdelayMask tsdelayShift : Nat) (id : Nat) : Nat :=
  (id &&& tsdelayMask) >>> tsdelayShift

/-- CaseTreatment::apply: push each configured medication onto the back of
the medicate queue and overwrite the pushed record's seekingDelay with the
delay decoded from the id. -/
def CaseTreatment.apply (tsdelayMask tsdelayShift : Nat) (ct : CaseTreatment)
    (medicateQueue : List MedicateData) (id : Nat) : List MedicateData :=
  let delay := decodeDelay tsdelayMask tsdelayShift id
  ct.medications.foldl
    (fun q m => q ++ [{ m with seekingDelay := (delay : Int) }]) medicateQueue

/-- The concrete subclasses of TimedDeployment (src/unnamed/part_003). -/
inductive TimedKind
  | changeHS
  | changeEIR
  | uninfectVectors
  | insertR0
  | mass
  | massCum
  | humanTimed
  | vectorPop
  | dummy
deriving DecidableEq, Repr

/-- One entry of the timed list: its trigger time and which TimedDeployment
subclass it is. -/
structure TimedEntry where
  time : Int
  kind : TimedKind
deriving DecidableEq, Repr

/-- The dynamic_cast test in loadFromCheckpoint: is this entry a
TimedChangeHSDeployment or a TimedChangeEIRDeployment? -/
def TimedEntry.isConfigChange (e : TimedEntry) : Bool :=
  match e.kind with
  | .changeHS => true
  | .changeEIR => true
  | _ => false

/-- The loop of InterventionManager::loadFromCheckpoint from index idx: walk
entries while their time is strictly before the resume intervention time,
re-deploying (recording) only the health-system and EIR changes, and
advance the cursor past every entry walked. Returns the re-deployed indices
and the final cursor. -/
def loadLoop (interventionTime : Int) : List TimedEntry → Nat → List Nat × Nat
  | [], idx => ([], idx)
  | e :: rest, idx =>
    if e.time < interventionTime then
      let r := loadLoop interventionTime rest (idx + 1)
      (if e.isConfigChange then idx :: r.1 else r.1, r.2)
    else ([], idx)

/-- InterventionManager::loadFromCheckpoint, starting from cursor 0 as the
code asserts. -/
def loadFromCheckpoint (timed : List TimedEntry) (interventionTime : Int) :
    List Nat × Nat :=
  loadLoop interventionTime timed 0

/-- The xml_scenario_error conditions thrown by the deployment
constructors, one tag per distinct message. -/
inductive XmlError
  | ctsBeginEnd
  | ctsAgeTooSmall
  | ctsAgeTooLarge
  | ctsCoverage
  | timedNegativeTime
  | massCoverage
  | massAgeRange
deriving DecidableEq, Repr

/-- ContinuousDeployment's constructor checks (src/unnamed/part_003, lines
36-63); deployAge is the target age already converted to time steps,
maxAgeIntervals is TimeStep::maxAgeIntervals. -/
def mkContinuousDeployment (maxAgeIntervals : Int) (begin_ end_ deployAge : Int)
    (cohortOnly : Bool) (coverage : ℚ) : Except XmlError ContinuousDeployment :=
  if begin_ < 0 ∨ end_ < begin_ then .error .ctsBeginEnd
  else if deployAge ≤ 0 then .error .ctsAgeTooSmall
  else if maxAgeIntervals < deployAge then .error .ctsAgeTooLarge
  else if ¬(coverage ≥ 0 ∧ coverage ≤ 1) then .error .ctsCoverage
  else .ok ⟨begin_, end_, deployAge, cohortOnly, coverage⟩

/-- TimedDeployment's constructor check: a negative deployment time is a
scenario error (a time after the last survey is only a warning). -/
def mkTimedDeployment (deploymentTime : Int) : Except XmlError Int :=
  if deploymentTime < 0 then .error .timedNegativeTime else .ok deploymentTime

/-- TimedMassDeployment's constructor: the base TimedDeployment check runs
first, then the coverage and age-range checks of the constructor body. -/
def mkTimedMassDeployment (time minAge maxAge : Int) (cohortOnly : Bool)
    (coverage : ℚ) : Except XmlError TimedMassDeployment :=
  match mkTimedDeployment time with
  | .error e => .error e
  | .ok t =>
    if ¬(coverage ≥ 0 ∧ coverage ≤ 1) then .error .massCoverage
    else if minAge < 0 ∨ maxAge < minAge then .error .massAgeRange
    else .ok ⟨t, minAge, maxAge, cohortOnly, coverage⟩

/-- DrugType (src/unnamed/part_002), restricted to the fields the registry
logic reads. -/
structure DrugType where
  name : String
  abbreviation : String
  absorptionFactor : ℚ
  halfLife : ℚ
deriving DecidableEq, Repr

/-- The two exception types thrown by the drug-type registry. -/
inductive RegError
  | invalidArgument
  | xmlScenarioError
deriving DecidableEq, Repr

/-- map<string,DrugType>::find on the registry, modelled as lookup by key
equality in an association list. -/
def regFind : List (String × DrugType) → String → Option DrugType
  | [], _ => none
  | p :: rest, abb => if p.1 = abb then some p.2 else regFind rest abb

/-- DrugType::addDrug: reject an abbreviation already in the registry with
invalid_argument, otherwise insert the drug keyed by its abbreviation. -/
def addDrug (available : List (String × DrugType)) (drug : DrugType) :
    Except RegError (List (String × DrugType)) :=
  if (regFind available drug.abbreviation).isSome then .error .invalidArgument
  else .ok (available ++ [(drug.abbreviation, drug)])

/-- DrugType::getDrug: look up an abbreviation; a missing abbreviation is an
xml_scenario_error. -/
def getDrug (available : List (String × DrugType)) (abb : String) :
    Except RegError DrugType :=
  match regFind available abb with
  | some d => .ok d
  | none => .error .xmlScenarioError

/-- Default entry used with getD lookups on the timed list. -/
def dE : TimedEntry := ⟨0, TimedKind.dummy⟩

/-- Default human used with getD lookups on the population. -/
def dH : Human := ⟨0, false, false⟩

/-- Sample humans and population for the witnesses. -/
def humA : Human := { age := 10, inCohort := true, protected_ := false }

def humB : Human := { age := 10, inCohort := false, protected_ := true }

def humC : Human := { age := 3, inCohort := true, protected_ := false }

def popW : List Human := [humA, humB, humC]

/-- A constant uniform stream used by the witnesses. -/
def rngHalf : Nat → ℚ := fun _ => 1/2

/-- Sample continuous deployment for the witnesses. -/
def cdW : ContinuousDeployment :=
  { begin_ := 0, end_ := 100, deployAge := 10, cohortOnly := false, coverage := 3/4 }

/-- Sample timed mass deployment for the witnesses. -/
def tmdW : TimedMassDeployment :=
  { time := 5, minAge := 0, maxAge := 20, cohortOnly := false, coverage := 3/4 }

/-- Sample timed list (sorted, sentinel-terminated) for the witnesses. -/
def timedW : List Int := [0, 2, 2, 5]

/-- Sample checkpoint timed list for the witnesses. -/
def entsW : List TimedEntry :=
  [⟨0, TimedKind.changeHS⟩, ⟨1, TimedKind.mass⟩, ⟨2, TimedKind.changeEIR⟩,
   ⟨3, TimedKind.massCum⟩, ⟨0x3FFFFFFF, TimedKind.dummy⟩]

/-- Sample medications and drugs for the witnesses. -/
def medW1 : MedicateData :=
  { abbrev_ := "CQ", qty := 3/2, time := 0, seekingDelay := 0 }

def medW2 : MedicateData :=
  { abbrev_ := "SP", qty := 1, time := 360, seekingDelay := 2 }

def ctW : CaseTreatment := ⟨[medW1, medW2]⟩

def drugCQ : DrugType :=
  { name := "Chloroquine", abbreviation := "CQ", absorptionFactor := 1/50,
    halfLife := 64800 }

def drugSP : DrugType :=
  { name := "Sulfadoxine", abbreviation := "S", absorptionFactor := 1/10,
    halfLife := 14400 }

theorem reachable_invariant (sd : SimData) (s : SimClock) (hr : sim.Reachable sd s) :
    (s.in_update = true → s.s_t1 = s.s_t0 + SimTime.oneTS sd) ∧
    (s.in_update = false → s.s_t0 = s.s_t1) := by
  induction hr with
  | init t0 iv => exact ⟨by simp, by simp⟩
  | step_start s h hu ih =>
      refine ⟨fun _ => ?_, fun hc => ?_⟩
      · show s.s_t1 + SimTime.oneTS sd = s.s_t0 + SimTime.oneTS sd
        rw [ih.2 hu]
      · simp [sim.start_update] at hc
  | step_end s h hu ih =>
      exact ⟨fun hc => by simp [sim.end_update] at hc, fun _ => rfl⟩

/-- C5: the simulation clock is a two-phase step machine: start_update adds one
time step to the end-of-step time s_t1 and sets the in-update flag;
end_update clears the flag, sets s_t0 to s_t1 and adds one time step to the
intervention-relative clock s_interv; consequently in any reachable state,
during an update s_t1 = s_t0 + oneTS, and between updates s_t0 = s_t1. -/
theorem sim_two_phase_step_machine (sd : SimData) (s : SimClock)
    (hr : sim.Reachable sd s) :
    (sim.start_update sd s).s_t1 = s.s_t1 + SimTime.oneTS sd ∧
    (sim.start_update sd s).in_update = true ∧
    (sim.start_update sd s).s_t0 = s.s_t0 ∧
    (sim.start_update sd s).s_interv = s.s_interv ∧
    (sim.end_update sd s).in_update = false ∧
    (sim.end_update sd s).s_t0 = s.s_t1 ∧
    (sim.end_update sd s).s_t1 = s.s_t1 ∧
    (sim.end_update sd s).s_interv = s.s_interv + SimTime.oneTS sd ∧
    (s.in_update = true → s.s_t1 = s.s_t0 + SimTime.oneTS sd) ∧
    (s.in_update = false → s.s_t0 = s.s_t1) := by
  refine ⟨rfl, rfl, rfl, rfl, rfl, rfl, rfl, rfl, ?_, ?_⟩
  · exact (reachable_invariant sd s hr).1
  · exact (reachable_invariant sd s hr).2

/-- Witness for C5 at the concrete initial clock state. -/
theorem sim_two_phase_step_machine_witness :
    (sim.start_update sd5 clk0).s_t1 = clk0.s_t1 + SimTime.oneTS sd5 ∧
    (sim.start_update sd5 clk0).in_update = true ∧
    (sim.start_update sd5 clk0).s_t0 = clk0.s_t0 ∧
    (sim.start_update sd5 clk0).s_interv = clk0.s_interv ∧
    (sim.end_update sd5 clk0).in_update = false ∧
    (sim.end_update sd5 clk0).s_t0 = clk0.s_t1 ∧
    (sim.end_update sd5 clk0).s_t1 = clk0.s_t1 ∧
    (sim.end_update sd5 clk0).s_interv = clk0.s_interv + SimTime.oneTS sd5 ∧
    (clk0.in_update = true → clk0.s_t1 = clk0.s_t0 + SimTime.oneTS sd5) ∧
    (clk0.in_update = false → clk0.s_t0 = clk0.s_t1) :=
  sim_two_phase_step_machine sd5 clk0 (sim.Reachable.init ⟨0⟩ ⟨0⟩)

/-- C6: accessing the wrong clock for the phase is an assertion failure:
ts0 and ts1 fail (return none) exactly when the in-update flag is clear,
now fails exactly when it is set; under the correct-phase precondition each
returns its value normally. -/
theorem clock_phase_assertions (s : SimClock) :
    (sim.ts0 s = none ↔ s.in_update = false) ∧
    (sim.ts1 s = none ↔ s.in_update = false) ∧
    (sim.now s = none ↔ s.in_update = true) ∧
    (s.in_update = true → sim.ts0 s = some s.s_t0 ∧ sim.ts1 s = some s.s_t1) ∧
    (s.in_update = false → sim.now s = some s.s_t0) := by
  unfold sim.ts0 sim.ts1 sim.now
  rcases s with ⟨t0, t1, iv, u⟩
  cases u <;> simp

/-- Witness for C6 at the concrete clock state. -/
theorem clock_phase_assertions_witness :
    (sim.ts0 clk0 = none ↔ clk0.in_update = false) ∧
    (sim.ts1 clk0 = none ↔ clk0.in_update = false) ∧
    (sim.now clk0 = none ↔ clk0.in_update = true) ∧
    (clk0.in_update = true → sim.ts0 clk0 = some clk0.s_t0 ∧ sim.ts1 clk0 = some clk0.s_t1) ∧
    (clk0.in_update = false → sim.now clk0 = some clk0.s_t0) :=
  clock_phase_assertions clk0

/-- C8: with the 5-day time step, fromYearsN and fromYearsD both map 1.0 year
to 73 steps (365 days), while on 0.52 years fromYearsN rounds 37.96 steps up
to 38 and fromYearsD floors to 37 — the two conversions differ there. -/
theorem fromYears_rounding_distinction :
    SimTime.fromYearsN sd5 1 = SimTime.fromDays 365 ∧
    SimTime.fromYearsD sd5 1 = SimTime.fromDays 365 ∧
    SimTime.inSteps sd5 (SimTime.fromYearsN sd5 1) = 73 ∧
    SimTime.fromYearsN sd5 (13/25) = SimTime.fromTS sd5 38 ∧
    SimTime.fromYearsD sd5 (13/25) = SimTime.fromTS sd5 37 ∧
    SimTime.fromYearsN sd5 (13/25) ≠ SimTime.fromYearsD sd5 (13/25) := by
  refine ⟨?_, ?_, ?_, ?_, ?_, ?_⟩ <;>
    norm_num [SimTime.fromYearsN, SimTime.fromYearsD, SimTime.roundToTSFromDays,
      SimTime.fromTS, SimTime.fromDays, SimTime.inSteps, floorToInt, Rat.floor_def', sd5]

theorem foldl_pushBack (f : MedicateData → MedicateData) :
    ∀ (ms : List MedicateData) (q : List MedicateData),
      ms.foldl (fun acc m => acc ++ [f m]) q = q ++ ms.map f := by
  intro ms
  induction ms with
  | nil => intro q; simp
  | cons m rest ih => intro q; simp [ih]

/-- C4: CaseTreatment::apply appends exactly one record per configured
medication, in the leaf's configured order, copying abbrev, qty and time
and overwriting only seekingDelay with the value decoded from the id's
delay bitfield — the same delay for every appended record — leaving the
existing queue entries untouched and consuming no randomness. -/
theorem caseTreatment_apply_spec (tsdelayMask tsdelayShift : Nat)
    (ct : CaseTreatment) (q : List MedicateData) (id : Nat) :
    CaseTreatment.apply tsdelayMask tsdelayShift ct q id =
      q ++ ct.medications.map (fun m =>
        { m with seekingDelay := (decodeDelay tsdelayMask tsdelayShift id : Int) }) ∧
    (CaseTreatment.apply tsdelayMask tsdelayShift ct q id).length =
      q.length + ct.medications.length := by
  have h : CaseTreatment.apply tsdelayMask tsdelayShift ct q id =
      q ++ ct.medications.map (fun m =>
        { m with seekingDelay := (decodeDelay tsdelayMask tsdelayShift id : Int) }) :=
    foldl_pushBack _ ct.medications q
  exact ⟨h, by rw [h]; simp⟩

/-- C9: out-of-range configuration values are rejected at construction
time by throwing: the continuous-deployment constructor succeeds iff
0 ≤ begin ≤ end, 0 < deployAge ≤ maxAgeIntervals and 0 ≤ coverage ≤ 1; the
timed mass-deployment constructor succeeds iff its deployment time is
non-negative, 0 ≤ coverage ≤ 1 and 0 ≤ minAge ≤ maxAge; the base timed
constructor succeeds iff the deployment time is non-negative. -/
theorem constructor_validation
    (maxAgeIntervals begin_ end_ deployAge : Int) (cohortOnly : Bool)
    (coverage : ℚ) (time minAge maxAge : Int) :
    (mkContinuousDeployment maxAgeIntervals begin_ end_ deployAge
        cohortOnly coverage =
        Except.ok ⟨begin_, end_, deployAge, cohortOnly, coverage⟩ ↔
      (0 ≤ begin_ ∧ begin_ ≤ end_ ∧ 0 < deployAge ∧
        deployAge ≤ maxAgeIntervals ∧ 0 ≤ coverage ∧ coverage ≤ 1)) ∧
    (mkTimedMassDeployment time minAge maxAge cohortOnly coverage =
        Except.ok ⟨time, minAge, maxAge, cohortOnly, coverage⟩ ↔
      (0 ≤ time ∧ 0 ≤ coverage ∧ coverage ≤ 1 ∧ 0 ≤ minAge ∧
        minAge ≤ maxAge)) ∧
    (mkTimedDeployment time = Except.ok time ↔ 0 ≤ time) := by
  unfold mkContinuousDeployment mkTimedMassDeployment mkTimedDeployment
  refine ⟨?_, ?_, ?_⟩
  · split_ifs with h1 h2 h3 h4 <;>
      simp_all <;> first | omega | (constructor <;> omega)
  · split_ifs with h1 h2 h3 <;> simp_all <;> first | omega | (constructor <;> omega)
  · split_ifs with h1 <;> simp_all <;> omega

theorem regFind_isSome (av : List (String × DrugType)) (abb : String) :
    (regFind av abb).isSome = true ↔ abb ∈ av.map Prod.fst := by
  induction av with
  | nil => simp [regFind]
  | cons p rest ih =>
      rw [regFind]
      by_cases h : p.1 = abb
      · simp [h]
      · rw [if_neg h, ih]
        constructor
        · intro hm
          simp only [List.map_cons, List.mem_cons]
          exact Or.inr hm
        · intro hm
          simp only [List.map_cons, List.mem_cons] at hm
          rcases hm with h1 | h2
          · exact absurd h1.symm h
          · exact h2

theorem regFind_mem (av : List (String × DrugType)) (abb : String)
    (t : DrugType) (h : regFind av abb = some t) : (abb, t) ∈ av := by
  induction av with
  | nil => simp [regFind] at h
  | cons p rest ih =>
      by_cases hp : p.1 = abb
      · rw [regFind, if_pos hp] at h
        obtain ⟨a, b⟩ := p
        replace hp : a = abb := hp
        replace h : b = t := by simpa using h
        subst hp
        subst h
        exact List.mem_cons_self _ _
      · rw [regFind, if_neg hp] at h
        exact List.mem_cons_of_mem _ (ih h)

theorem regFind_append_ne (av : List (String × DrugType)) (a b : String)
    (d : DrugType) (h : b ≠ a) :
    regFind (av ++ [(a, d)]) b = regFind av b := by
  induction av with
  | nil => simp [regFind, Ne.symm h]
  | cons p rest ih =>
      by_cases hp : p.1 = b <;> simp [regFind, hp, ih]

/-- C10: the drug registry fails loudly and atomically: addDrug throws
invalid_argument exactly when the abbreviation is already registered and
otherwise appends the new entry; getDrug throws xml_scenario_error exactly
when the abbreviation is absent, any drug it returns is one registered
under that abbreviation, and a successful addDrug makes its own drug
retrievable while changing no other lookup. -/
theorem drug_registry_spec (av av2 : List (String × DrugType)) (d : DrugType)
    (abb b : String) (t : DrugType) :
    (addDrug av d = Except.error RegError.invalidArgument ↔
      d.abbreviation ∈ av.map Prod.fst) ∧
    (addDrug av d = Except.ok (av ++ [(d.abbreviation, d)]) ↔
      d.abbreviation ∉ av.map Prod.fst) ∧
    (getDrug av abb = Except.error RegError.xmlScenarioError ↔
      abb ∉ av.map Prod.fst) ∧
    (getDrug av abb = Except.ok t → (abb, t) ∈ av) ∧
    (addDrug av d = Except.ok av2 →
      av2 = av ++ [(d.abbreviation, d)] ∧
      getDrug av2 d.abbreviation = Except.ok d ∧
      (b ≠ d.abbreviation → getDrug av2 b = getDrug av b)) := by
  refine ⟨?_, ?_, ?_, ?_, ?_⟩
  · rw [← regFind_isSome]
    unfold addDrug
    split_ifs with h <;> simp [h]
  · rw [← regFind_isSome]
    unfold addDrug
    split_ifs with h <;> simp [h]
  · rw [← regFind_isSome]
    unfold getDrug
    cases hf : regFind av abb <;> simp [hf]
  · intro ht
    unfold getDrug at ht
    cases hf : regFind av abb with
    | none => rw [hf] at ht; cases ht
    | some u =>
        rw [hf] at ht
        cases ht
        exact regFind_mem av abb _ hf
  · intro hok
    unfold addDrug at hok
    split_ifs at hok with h
    cases hok
    refine ⟨rfl, ?_, ?_⟩
    · unfold getDrug
      have hnone : regFind av d.abbreviation = none := by
        cases hf : regFind av d.abbreviation with
        | none => rfl
        | some u => rw [hf] at h; simp at h
      have hsome : ∀ av0 : List (String × DrugType),
          regFind av0 d.abbreviation = none →
          regFind (av0 ++ [(d.abbreviation, d)]) d.abbreviation = some d := by
        intro av0
        induction av0 with
        | nil => intro _; simp [regFind]
        | cons p rest ih =>
            intro hn
            by_cases hp : p.1 = d.abbreviation
            · rw [regFind, if_pos hp] at hn; cases hn
            · rw [regFind, if_neg hp] at hn
              rw [List.cons_append, regFind, if_neg hp]
              exact ih hn
      rw [hsome av hnone]
    · intro hb
      unfold getDrug
      rw [regFind_append_ne av _ b d hb]

/-- Witness for C9 at concrete parameter values. -/
theorem constructor_validation_witness :
    (mkContinuousDeployment 100 0 8 2 false (1/2) =
        Except.ok ⟨0, 8, 2, false, 1/2⟩ ↔
      ((0 : Int) ≤ 0 ∧ (0 : Int) ≤ 8 ∧ (0 : Int) < 2 ∧ (2 : Int) ≤ 100 ∧
        (0 : ℚ) ≤ 1/2 ∧ (1/2 : ℚ) ≤ 1)) ∧
    (mkTimedMassDeployment 3 0 10 false (1/2) =
        Except.ok ⟨3, 0, 10, false, 1/2⟩ ↔
      ((0 : Int) ≤ 3 ∧ (0 : ℚ) ≤ 1/2 ∧ (1/2 : ℚ) ≤ 1 ∧ (0 : Int) ≤ 0 ∧
        (0 : Int) ≤ 10)) ∧
    (mkTimedDeployment 3 = Except.ok 3 ↔ (0 : Int) ≤ 3) :=
  constructor_validation 100 0 8 2 false (1/2) 3 0 10

/-- Witness for C10: a fresh drug is inserted and retrievable, a duplicate
insertion fails, and an absent abbreviation fails lookup. -/
theorem drug_registry_spec_witness :
    addDrug [] drugCQ = Except.ok [(drugCQ.abbreviation, drugCQ)] ∧
    addDrug [(drugCQ.abbreviation, drugCQ)] drugCQ =
      Except.error RegError.invalidArgument ∧
    getDrug [(drugCQ.abbreviation, drugCQ)] drugCQ.abbreviation =
      Except.ok drugCQ ∧
    getDrug [(drugCQ.abbreviation, drugCQ)] drugSP.abbreviation =
      Except.error RegError.xmlScenarioError := by
  have h1 := drug_registry_spec [] [(drugCQ.abbreviation, drugCQ)] drugCQ
    drugCQ.abbreviation drugSP.abbreviation drugCQ
  have h2 := drug_registry_spec [(drugCQ.abbreviation, drugCQ)]
    [(drugCQ.abbreviation, drugCQ)] drugCQ drugSP.abbreviation
    drugSP.abbreviation drugCQ
  refine ⟨?_, ?_, ?_, ?_⟩
  · simpa using h1.2.1.mpr (by simp)
  · exact h2.1.mpr (by simp)
  · exact (h1.2.2.2.2 (by simpa using h1.2.1.mpr (by simp))).2.1
  · exact h2.2.2.1.mpr (by simp [drugCQ, drugSP])

/-- C2: filterAndDeploy returns false exactly when the target age exceeds
the human's age (and then nothing is deployed and no draw is made); at an
exact age match it deploys iff the intervention period lies in
[begin, end), the cohort restriction passes and one uniform draw is below
coverage, the draw being consumed exactly when all earlier tests pass (so
the RNG test is the last check); at a missed (smaller) target age it
returns true with no deployment and no draw. -/
theorem filterAndDeploy_spec (cd : ContinuousDeployment) (h : Human)
    (ip : Int) (draw : ℚ) :
    ((cd.filterAndDeploy h ip draw).retVal = false ↔ h.age < cd.deployAge) ∧
    (h.age < cd.deployAge →
      cd.filterAndDeploy h ip draw = ⟨false, false, 0⟩) ∧
    (cd.deployAge = h.age →
      (((cd.filterAndDeploy h ip draw).deployed = true) ↔
        (cd.begin_ ≤ ip ∧ ip < cd.end_ ∧
          (cd.cohortOnly = false ∨ h.inCohort = true) ∧ draw < cd.coverage)) ∧
      (((cd.filterAndDeploy h ip draw).draws = 1) ↔
        (cd.begin_ ≤ ip ∧ ip < cd.end_ ∧
          (cd.cohortOnly = false ∨ h.inCohort = true))) ∧
      ((cd.filterAndDeploy h ip draw).draws = 0 ↔
        ¬(cd.begin_ ≤ ip ∧ ip < cd.end_ ∧
          (cd.cohortOnly = false ∨ h.inCohort = true))) ∧
      (cd.filterAndDeploy h ip draw).retVal = true) ∧
    (cd.deployAge < h.age →
      cd.filterAndDeploy h ip draw = ⟨true, false, 0⟩) := by
  refine ⟨?_, ?_, ?_, ?_⟩
  · unfold ContinuousDeployment.filterAndDeploy
    split_ifs with h1 h2 h3 h4 h5 h6 <;> simp_all <;> omega
  · intro hlt
    unfold ContinuousDeployment.filterAndDeploy
    rw [if_pos hlt]
  · intro heq
    unfold ContinuousDeployment.filterAndDeploy
    rw [if_neg (by omega), if_pos heq]
    split_ifs with h3 h4 h5 h6 <;> simp_all <;> tauto
  · intro hgt
    unfold ContinuousDeployment.filterAndDeploy
    rw [if_neg (by omega), if_neg (by omega)]

/-- Witness for C2: at an exact age match inside the window with a passing
draw the deployment happens with one draw consumed; a younger target age
halts the traversal. -/
theorem filterAndDeploy_spec_witness :
    (cdW.filterAndDeploy humA 1 (1/2)).deployed = true ∧
    (cdW.filterAndDeploy humA 1 (1/2)).draws = 1 ∧
    (cdW.filterAndDeploy humC 1 (1/2)).retVal = false :=
  ⟨((filterAndDeploy_spec cdW humA 1 (1/2)).2.2.1
      (by norm_num [cdW, humA])).1.mpr (by norm_num [cdW, humA]),
   ((filterAndDeploy_spec cdW humA 1 (1/2)).2.2.1
      (by norm_num [cdW, humA])).2.1.mpr (by norm_num [cdW]),
   (filterAndDeploy_spec cdW humC 1 (1/2)).1.mpr (by norm_num [cdW, humC])⟩

theorem loadLoop_cursor (resumeT : Int) :
    ∀ (l : List TimedEntry) (idx : Nat),
      ∃ k, (loadLoop resumeT l idx).2 = idx + k ∧ k ≤ l.length ∧
        (∀ j, j < k → (l.getD j dE).time < resumeT) ∧
        (k < l.length → resumeT ≤ (l.getD k dE).time) := by
  intro l
  induction l with
  | nil =>
      intro idx
      refine ⟨0, rfl, Nat.le_refl 0, ?_, ?_⟩
      · intro j hj; exact absurd hj (by omega)
      · intro hc; exact absurd hc (by simp)
  | cons e rest ih =>
      intro idx
      by_cases he : e.time < resumeT
      · obtain ⟨k, h2, hlen, hbef, hstop⟩ := ih (idx + 1)
        refine ⟨k + 1, ?_, ?_, ?_, ?_⟩
        · show (loadLoop resumeT (e :: rest) idx).2 = idx + (k + 1)
          simp only [loadLoop]
          rw [if_pos he]
          show (loadLoop resumeT rest (idx + 1)).2 = idx + (k + 1)
          rw [h2]
          omega
        · simpa using Nat.succ_le_succ hlen
        · intro j hj
          cases j with
          | zero => simpa [List.getD_cons_zero] using he
          | succ j2 =>
              rw [List.getD_cons_succ]
              exact hbef j2 (by omega)
        · intro hc
          rw [List.getD_cons_succ]
          exact hstop (by simpa using hc)
      · refine ⟨0, ?_, ?_, ?_, ?_⟩
        · show (loadLoop resumeT (e :: rest) idx).2 = idx + 0
          simp only [loadLoop]
          rw [if_neg he]
          simp
        · simp
        · intro j hj; exact absurd hj (by omega)
        · intro _
          rw [List.getD_cons_zero]
          omega

theorem loadLoop_mem (resumeT : Int) :
    ∀ (l : List TimedEntry) (idx : Nat),
      List.Pairwise (fun a b => a.time ≤ b.time) l →
      ∀ i, i ∈ (loadLoop resumeT l idx).1 ↔
        ∃ j, j < l.length ∧ i = idx + j ∧
          (l.getD j dE).time < resumeT ∧ (l.getD j dE).isConfigChange = true := by
  intro l
  induction l with
  | nil =>
      intro idx _ i
      simp [loadLoop]
  | cons e rest ih =>
      intro idx hp i
      have hp1 : ∀ b ∈ rest, e.time ≤ b.time := (List.pairwise_cons.mp hp).1
      have hrec := ih (idx + 1) (List.pairwise_cons.mp hp).2
      constructor
      · intro hm
        by_cases he : e.time < resumeT
        · simp only [loadLoop] at hm
          rw [if_pos he] at hm
          by_cases hc : e.isConfigChange
          · rw [if_pos hc] at hm
            rcases List.mem_cons.mp hm with h0 | hr
            · exact ⟨0, by simp, by omega,
                by simpa [List.getD_cons_zero] using he,
                by simpa [List.getD_cons_zero] using hc⟩
            · obtain ⟨j, hj, hi, ht, hcf⟩ := (hrec i).mp hr
              exact ⟨j + 1, by simpa using Nat.succ_lt_succ hj, by omega,
                by simpa [List.getD_cons_succ] using ht,
                by simpa [List.getD_cons_succ] using hcf⟩
          · rw [if_neg hc] at hm
            obtain ⟨j, hj, hi, ht, hcf⟩ := (hrec i).mp hm
            exact ⟨j + 1, by simpa using Nat.succ_lt_succ hj, by omega,
              by simpa [List.getD_cons_succ] using ht,
              by simpa [List.getD_cons_succ] using hcf⟩
        · simp only [loadLoop] at hm
          rw [if_neg he] at hm
          simp at hm
      · rintro ⟨j, hj, hi, ht, hcf⟩
        by_cases he : e.time < resumeT
        · simp only [loadLoop]
          rw [if_pos he]
          cases j with
          | zero =>
              rw [List.getD_cons_zero] at hcf
              rw [if_pos hcf]
              exact List.mem_cons.mpr (Or.inl (by omega))
          | succ j2 =>
              rw [List.getD_cons_succ] at ht hcf
              have hr : i ∈ (loadLoop resumeT rest (idx + 1)).1 :=
                (hrec i).mpr ⟨j2, by simpa using hj, by omega, ht, hcf⟩
              by_cases hc : e.isConfigChange
              · rw [if_pos hc]; exact List.mem_cons_of_mem _ hr
              · rw [if_neg hc]; exact hr
        · exfalso
          cases j with
          | zero =>
              rw [List.getD_cons_zero] at ht
              exact he ht
          | succ j2 =>
              rw [List.getD_cons_succ] at ht
              have hj2 : j2 < rest.length := by simpa using hj
              have hmem : rest.getD j2 dE ∈ rest := by
                rw [List.getD_eq_getElem _ _ hj2]
                exact List.getElem_mem hj2
              have := hp1 _ hmem
              omega

/-- C7: after checkpoint resume, loadFromCheckpoint starts from timed-list
cursor 0 and re-executes exactly the change-health-system and change-EIR
descriptors whose trigger time is strictly before the resume intervention
time — so no population-affecting descriptor is re-deployed — leaving the
cursor on the first descriptor whose time is at or after the resume
point. -/
theorem loadFromCheckpoint_spec (ents : List TimedEntry) (resumeT : Int)
    (i j : Nat)
    (hsort : List.Pairwise (fun a b => a.time ≤ b.time) ents) :
    (i ∈ (loadFromCheckpoint ents resumeT).1 ↔
      (i < ents.length ∧ (ents.getD i dE).time < resumeT ∧
        (ents.getD i dE).isConfigChange = true)) ∧
    (loadFromCheckpoint ents resumeT).2 ≤ ents.length ∧
    (j < (loadFromCheckpoint ents resumeT).2 →
      (ents.getD j dE).time < resumeT) ∧
    ((loadFromCheckpoint ents resumeT).2 < ents.length →
      resumeT ≤ (ents.getD (loadFromCheckpoint ents resumeT).2 dE).time) := by
  obtain ⟨k, hk, hlen, hbef, hstop⟩ := loadLoop_cursor resumeT ents 0
  have hk0 : (loadFromCheckpoint ents resumeT).2 = k := by
    rw [loadFromCheckpoint, hk]
    omega
  refine ⟨?_, ?_, ?_, ?_⟩
  · rw [loadFromCheckpoint, loadLoop_mem resumeT ents 0 hsort i]
    constructor
    · rintro ⟨j2, hj2, hi, ht, hc⟩
      have hij : i = j2 := by omega
      subst hij
      exact ⟨hj2, ht, hc⟩
    · rintro ⟨hlt, ht, hc⟩
      exact ⟨i, hlt, by omega, ht, hc⟩
  · rw [hk0]; exact hlen
  · rw [hk0]; intro hj; exact hbef j hj
  · rw [hk0]; intro hc; exact hstop hc

/-- Witness for C7 on a concrete sorted timed list: index 2 (a change-EIR
entry before the resume time) is re-deployed, the entry at index 1 was
walked past, and the cursor rests on the first entry at or after the
resume time. -/
theorem loadFromCheckpoint_spec_witness :
    ((2 : Nat) ∈ (loadFromCheckpoint entsW 3).1 ↔
      (2 < entsW.length ∧ (entsW.getD 2 dE).time < 3 ∧
        (entsW.getD 2 dE).isConfigChange = true)) ∧
    (loadFromCheckpoint entsW 3).2 ≤ entsW.length ∧
    (1 < (loadFromCheckpoint entsW 3).2 → (entsW.getD 1 dE).time < 3) ∧
    ((loadFromCheckpoint entsW 3).2 < entsW.length →
      3 ≤ (entsW.getD (loadFromCheckpoint entsW 3).2 dE).time) :=
  loadFromCheckpoint_spec entsW 3 2 1 (by decide)

theorem cumSecondPass_spec (ac : ℚ) (rng : Nat → ℚ) :
    ∀ (l : List Nat) (k : Nat),
      cumSecondPass ac rng l k =
        (((l.zip (List.range' k l.length)).filter
            (fun x => decide (rng x.2 < ac))).map Prod.fst,
         k + l.length) := by
  intro l
  induction l with
  | nil => intro k; simp [cumSecondPass]
  | cons i rest ih =>
      intro k
      simp only [cumSecondPass]
      rw [ih (k + 1)]
      dsimp only
      have hr : List.range' k (i :: rest).length =
          k :: List.range' (k + 1) rest.length := by
        simp [List.range'_succ]
      rw [hr, List.zip_cons_cons, List.filter_cons]
      by_cases hd : rng k < ac
      · rw [if_pos hd, if_pos (by simpa using hd), List.map_cons, Prod.ext_iff]
        refine ⟨rfl, ?_⟩
        simp only [List.length_cons]
        omega
      · rw [if_neg hd, if_neg (by simp [hd]), Prod.ext_iff]
        refine ⟨rfl, ?_⟩
        simp only [List.length_cons]
        omega

theorem cumFirstPass_mem (d : TimedMassDeployment) :
    ∀ (pop : List Human) (i0 : Nat) (x : Nat),
      x ∈ (cumFirstPass d pop i0).2 →
      ∃ j, j < pop.length ∧ x = i0 + j ∧
        d.eligible (pop.getD j dH) = true ∧
        (pop.getD j dH).protected_ = false := by
  intro pop
  induction pop with
  | nil => intro i0 x hx; simp [cumFirstPass] at hx
  | cons h rest ih =>
      intro i0 x hx
      simp only [cumFirstPass] at hx
      by_cases helig : d.eligible h
      · rw [if_pos helig] at hx
        by_cases hpr : h.protected_
        · rw [if_neg (by simp [hpr])] at hx
          obtain ⟨j, hj, hxe, he2, hp2⟩ := ih (i0 + 1) x hx
          exact ⟨j + 1, by simpa using Nat.succ_lt_succ hj, by omega,
            by simpa [List.getD_cons_succ] using he2,
            by simpa [List.getD_cons_succ] using hp2⟩
        · rw [if_pos (by simp [hpr])] at hx
          rcases List.mem_cons.mp hx with h0 | hr
          · refine ⟨0, by simp, by omega, ?_, ?_⟩
            · simpa [List.getD_cons_zero] using helig
            · simp [List.getD_cons_zero, hpr]
          · obtain ⟨j, hj, hxe, he2, hp2⟩ := ih (i0 + 1) x hr
            exact ⟨j + 1, by simpa using Nat.succ_lt_succ hj, by omega,
              by simpa [List.getD_cons_succ] using he2,
              by simpa [List.getD_cons_succ] using hp2⟩
      · rw [if_neg helig] at hx
        obtain ⟨j, hj, hxe, he2, hp2⟩ := ih (i0 + 1) x hx
        exact ⟨j + 1, by simpa using Nat.succ_lt_succ hj, by omega,
          by simpa [List.getD_cons_succ] using he2,
          by simpa [List.getD_cons_succ] using hp2⟩

/-- C3: TimedMassCumDeployment::deploy first computes the protected
fraction p among eligible humans with no RNG draw; when the requested
coverage is at most p it makes zero draws and deploys to nobody; when p is
below the coverage it makes exactly one uniform draw per unprotected
eligible human, deploying to the k-th of them exactly when the k-th draw
is below (coverage - p) / (1 - p); and it only ever deploys to unprotected
eligible humans, never re-randomizing or re-deploying the protected. -/
theorem cumDeploy_spec (d : TimedMassDeployment) (pop : List Human)
    (rng : Nat → ℚ) (i : Nat) (htot : 0 < cumTotal d pop) :
    (d.coverage ≤ cumPropProtected d pop → d.cumDeploy pop rng = ([], 0)) ∧
    (cumPropProtected d pop < d.coverage →
      d.cumDeploy pop rng =
        ((((cumUnprotected d pop).zip
              (List.range' 0 (cumUnprotected d pop).length)).filter
            (fun x => decide (rng x.2 < cumAdditionalCoverage d pop))).map
          Prod.fst,
         (cumUnprotected d pop).length)) ∧
    (i ∈ (d.cumDeploy pop rng).1 →
      i < pop.length ∧ d.eligible (pop.getD i dH) = true ∧
        (pop.getD i dH).protected_ = false) := by
  refine ⟨?_, ?_, ?_⟩
  · intro hcov
    rw [TimedMassDeployment.cumDeploy, if_neg (not_lt.mpr hcov)]
  · intro hcov
    rw [TimedMassDeployment.cumDeploy, if_pos hcov,
      cumSecondPass_spec (cumAdditionalCoverage d pop) rng
        (cumUnprotected d pop) 0]
    simp
  · intro hmem
    rw [TimedMassDeployment.cumDeploy] at hmem
    by_cases hcov : cumPropProtected d pop < d.coverage
    · rw [if_pos hcov,
        cumSecondPass_spec (cumAdditionalCoverage d pop) rng
          (cumUnprotected d pop) 0] at hmem
      simp only [List.mem_map] at hmem
      obtain ⟨⟨a, b⟩, hab, ha⟩ := hmem
      have hz : (a, b) ∈
          (cumUnprotected d pop).zip
            (List.range' 0 (cumUnprotected d pop).length) :=
        List.mem_of_mem_filter hab
      have hu : a ∈ cumUnprotected d pop := (List.of_mem_zip hz).1
      obtain ⟨j, hj, hxe, he2, hp2⟩ :=
        cumFirstPass_mem d pop 0 a hu
      have hij : i = j := by omega
      subst hij
      cases ha
      exact ⟨hj, he2, hp2⟩
    · rw [if_neg hcov] at hmem
      simp at hmem

/-- Witness for C3 on a concrete population (three eligible humans, one
protected, so p = 1/3 < coverage 3/4): one draw per unprotected human and
deployment only to unprotected eligible humans. -/
theorem cumDeploy_spec_witness :
    (tmdW.coverage ≤ cumPropProtected tmdW popW →
      tmdW.cumDeploy popW rngHalf = ([], 0)) ∧
    (cumPropProtected tmdW popW < tmdW.coverage →
      tmdW.cumDeploy popW rngHalf =
        ((((cumUnprotected tmdW popW).zip
              (List.range' 0 (cumUnprotected tmdW popW).length)).filter
            (fun x => decide (rngHalf x.2 <
              cumAdditionalCoverage tmdW popW))).map Prod.fst,
         (cumUnprotected tmdW popW).length)) ∧
    ((0 : Nat) ∈ (tmdW.cumDeploy popW rngHalf).1 →
      0 < popW.length ∧ tmdW.eligible (popW.getD 0 dH) = true ∧
        (popW.getD 0 dH).protected_ = false) :=
  cumDeploy_spec tmdW popW rngHalf 0 (by decide)

theorem range'_split (s m n : Nat) :
    List.range' s (m + n) = List.range' s m ++ List.range' (s + m) n := by
  induction m generalizing s with
  | zero => simp
  | succ m2 ih =>
      have h1 : m2 + 1 + n = (m2 + n) + 1 := by omega
      rw [h1, List.range'_succ, ih (s + 1), List.range'_succ, List.cons_append]
      have h2 : s + 1 + m2 = s + (m2 + 1) := by omega
      rw [h2]

theorem deployTimedLoop_spec (p : Int) :
    ∀ (l : List Int) (idx : Nat),
      deployTimedLoop p l idx =
        (List.range' idx ((l.takeWhile (fun t => decide (t ≤ p))).length),
         idx + (l.takeWhile (fun t => decide (t ≤ p))).length) := by
  intro l
  induction l with
  | nil => intro idx; simp [deployTimedLoop]
  | cons t rest ih =>
      intro idx
      simp only [deployTimedLoop]
      by_cases ht : t ≤ p
      · rw [if_pos ht, ih (idx + 1)]
        dsimp only
        rw [List.takeWhile_cons, if_pos (by simpa using ht)]
        rw [List.length_cons, List.range'_succ, Prod.ext_iff]
        exact ⟨rfl, by omega⟩
      · rw [if_neg ht]
        rw [List.takeWhile_cons, if_neg (by simp [ht])]
        simp

theorem takeWhile_sentinel_le (q : Int → Bool) (F : Int) (hF : q F = false) :
    ∀ l : List Int, ((l ++ [F]).takeWhile q).length ≤ l.length := by
  intro l
  induction l with
  | nil => simp [List.takeWhile_cons, hF]
  | cons t rest ih =>
      rw [List.cons_append, List.takeWhile_cons]
      by_cases ht : q t
      · rw [if_pos ht, List.length_cons, List.length_cons]
        exact Nat.succ_le_succ ih
      · rw [if_neg (by simp [ht])]
        simp

theorem takeWhile_sentinel_all (q : Int → Bool) (F : Int) (hF : q F = false) :
    ∀ l : List Int, (∀ t ∈ l, q t = true) → (l ++ [F]).takeWhile q = l := by
  intro l
  induction l with
  | nil => intro _; simp [List.takeWhile_cons, hF]
  | cons t rest ih =>
      intro hall
      rw [List.cons_append, List.takeWhile_cons, if_pos (hall t (by simp))]
      rw [ih (fun x hx => hall x (by simp [hx]))]

theorem runDeploy_append (im : InterventionManager) (ps qs : List Int) :
    runDeploy im (ps ++ qs) =
      ((runDeploy (runDeploy im ps).1 qs).1,
       (runDeploy im ps).2 ++ (runDeploy (runDeploy im ps).1 qs).2) := by
  induction ps generalizing im with
  | nil => simp [runDeploy]
  | cons p ps ih =>
      rw [List.cons_append]
      simp only [runDeploy]
      rw [ih (im.deploy p).1]
      simp [List.append_assoc]

theorem runDeploy_warmup (im : InterventionManager) :
    ∀ negs : List Int, (∀ q ∈ negs, q < 0) → runDeploy im negs = (im, []) := by
  intro negs
  induction negs with
  | nil => intro _; rfl
  | cons p ps ih =>
      intro h
      have hp : p < 0 := h p (by simp)
      simp only [runDeploy, InterventionManager.deploy, if_pos hp]
      rw [ih (fun x hx => h x (by simp [hx]))]
      simp

theorem runDeploy_blocks (real : List Int) (F : Int) :
    ∀ (ps : List Int), (∀ q ∈ ps, q < F) →
      ∀ c, c ≤ real.length →
        ∃ c2, c ≤ c2 ∧ c2 ≤ real.length ∧
          runDeploy ⟨real ++ [F], c⟩ ps =
            (⟨real ++ [F], c2⟩, List.range' c (c2 - c)) := by
  intro ps
  induction ps with
  | nil =>
      intro _ c hc
      exact ⟨c, Nat.le_refl c, hc, by simp [runDeploy]⟩
  | cons p ps ih =>
      intro hps c hc
      have hrest : ∀ q ∈ ps, q < F := fun x hx => hps x (by simp [hx])
      by_cases hp : p < 0
      · obtain ⟨c2, h1, h2, h3⟩ := ih hrest c hc
        refine ⟨c2, h1, h2, ?_⟩
        simp only [runDeploy, InterventionManager.deploy, if_pos hp]
        rw [h3]
        simp
      · have hpF : p < F := hps p (by simp)
        have hdrop : (real ++ [F]).drop c = real.drop c ++ [F] :=
          List.drop_append_of_le_length hc
        have hqF : (fun t => decide (t ≤ p)) F = false := by
          simp only [decide_eq_false_iff_not]
          omega
        have hL := takeWhile_sentinel_le (fun t => decide (t ≤ p)) F hqF
          (real.drop c)
        have hdl : (real.drop c).length = real.length - c := by simp
        have hcL : c +
            ((real.drop c ++ [F]).takeWhile (fun t => decide (t ≤ p))).length ≤
            real.length := by omega
        obtain ⟨c2, h1, h2, h3⟩ := ih hrest _ hcL
        refine ⟨c2, by omega, h2, ?_⟩
        simp only [runDeploy, InterventionManager.deploy, if_neg hp]
        rw [hdrop, deployTimedLoop_spec p (real.drop c ++ [F]) c]
        dsimp only
        rw [h3, Prod.ext_iff]
        refine ⟨rfl, ?_⟩
        dsimp only
        rw [← range'_split]
        congr 1
        omega

theorem deploy_final (real : List Int) (F n : Int) (c : Nat)
    (hc : c ≤ real.length) (hmem : ∀ t ∈ real, t ≤ n) (hF : n < F)
    (hn : 0 ≤ n) :
    InterventionManager.deploy ⟨real ++ [F], c⟩ n =
      (⟨real ++ [F], real.length⟩, List.range' c (real.length - c)) := by
  have hnp : ¬ n < 0 := by omega
  simp only [InterventionManager.deploy, if_neg hnp]
  rw [List.drop_append_of_le_length hc,
    deployTimedLoop_spec n (real.drop c ++ [F]) c]
  have hqF : (fun t => decide (t ≤ n)) F = false := by
    simp only [decide_eq_false_iff_not]
    omega
  rw [takeWhile_sentinel_all (fun t => decide (t ≤ n)) F hqF (real.drop c)
    (fun t ht => by
      simp only [decide_eq_true_eq]
      exact hmem t (List.mem_of_mem_drop ht))]
  dsimp only
  rw [List.length_drop]
  have hcc : c + (real.length - c) = real.length := by omega
  rw [hcc]

/-- C1: for a timed list sorted non-decreasing whose real trigger times lie
in [0, n], terminated by the always-in-the-future sentinel F, a deploy call
during warm-up (interventionPeriod < 0) deploys nothing and leaves the
global cursor unmoved, and running deploy once per step — warm-up steps
followed by intervention periods 0..n — deploys every real timed
descriptor exactly once, in list (time) order, ending with the cursor past
the whole real list. -/
theorem timed_deploy_each_once (real : List Int) (F : Int) (n : Nat)
    (negs : List Int) (p0 : Int)
    (hsort : List.Pairwise (fun a b => a ≤ b) real)
    (hmem : ∀ t ∈ real, 0 ≤ t ∧ t ≤ (n : Int))
    (hF : (n : Int) < F)
    (hnegs : ∀ q ∈ negs, q < 0)
    (hp0 : p0 < 0) :
    InterventionManager.deploy ⟨real ++ [F], 0⟩ p0 =
      (⟨real ++ [F], 0⟩, []) ∧
    runDeploy ⟨real ++ [F], 0⟩
        (negs ++ (List.range (n + 1)).map Int.ofNat) =
      (⟨real ++ [F], real.length⟩, List.range real.length) := by
  constructor
  · simp [InterventionManager.deploy, hp0]
  · rw [runDeploy_append, runDeploy_warmup ⟨real ++ [F], 0⟩ negs hnegs]
    dsimp only
    simp only [List.nil_append]
    have hsplit : (List.range (n + 1)).map Int.ofNat =
        (List.range n).map Int.ofNat ++ [(n : Int)] := by
      rw [List.range_succ, List.map_append]
      simp
    rw [hsplit, runDeploy_append]
    have hlt : ∀ q ∈ (List.range n).map Int.ofNat, q < F := by
      intro q hq
      simp only [List.mem_map, List.mem_range] at hq
      obtain ⟨j, hj, rfl⟩ := hq
      have hjn : Int.ofNat j < (n : Int) := by
        rw [Int.ofNat_eq_natCast]
        exact_mod_cast hj
      omega
    obtain ⟨c2, h1, h2, h3⟩ := runDeploy_blocks real F
      ((List.range n).map Int.ofNat) hlt 0 (Nat.zero_le _)
    rw [h3]
    dsimp only
    have hfin := deploy_final real F (n : Int) c2 h2
      (fun t ht => (hmem t ht).2) hF (by exact_mod_cast Nat.zero_le n)
    have hone : runDeploy ⟨real ++ [F], c2⟩ [(n : Int)] =
        (⟨real ++ [F], real.length⟩,
         List.range' c2 (real.length - c2) ++ []) := by
      simp only [runDeploy]
      rw [hfin]
    rw [hone]
    dsimp only
    rw [List.append_nil, Nat.sub_zero, Prod.ext_iff]
    refine ⟨rfl, ?_⟩
    dsimp only
    have hsp := range'_split 0 c2 (real.length - c2)
    rw [Nat.zero_add] at hsp
    rw [← hsp, List.range_eq_range']
    congr 1
    omega

/-- Witness for C1 on a concrete sorted timed list with sentinel 100: a
warm-up call at period -7 is a no-op, and the full run (two warm-up steps
then periods 0..5) deploys the four real descriptors exactly once each, in
order. -/
theorem timed_deploy_each_once_witness :
    InterventionManager.deploy ⟨timedW ++ [100], 0⟩ (-7) =
      (⟨timedW ++ [100], 0⟩, []) ∧
    runDeploy ⟨timedW ++ [100], 0⟩
        ([-3, -1] ++ (List.range (5 + 1)).map Int.ofNat) =
      (⟨timedW ++ [100], timedW.length⟩, List.range timedW.length) :=
  timed_deploy_each_once timedW 100 5 [-3, -1] (-7) (by decide) (by decide)
    (by decide) (by decide) (by decide)

end OMSpec
